import Mathlib

/-!
Verification development for `avaya_html_report_cleaner.py`.

The script's `main` function is shallowly embedded below.  Strings are
manipulated through executable helpers defined on `List Char` (structural
recursion only, so concrete runs reduce by `rfl`/`decide`); fallible Python
operations (`dict[...]`, `int(...)`, `list[i]`, `datetime.strptime`,
pandas column assignment / insert) are modelled in the `Except Err` monad.
-/

/-! ## Character classes -/

/-- Python whitespace characters, as recognised by `str.strip()`, `int()`
and the regex class that the script's label pattern relies on. -/
def isSpaceCh (c : Char) : Bool :=
  c = ' ' ∨ c = '\t' ∨ c = '\n' ∨ c = '\x0b' ∨ c = '\x0c' ∨ c = '\r' ∨
  c = '\x1c' ∨ c = '\x1d' ∨ c = '\x1e' ∨ c = '\x1f' ∨ c = '\x85' ∨ c = '\xa0' ∨
  c = ' ' ∨ c = ' ' ∨ c = ' ' ∨ c = ' ' ∨ c = ' ' ∨
  c = ' ' ∨ c = ' ' ∨ c = ' ' ∨ c = ' ' ∨ c = ' ' ∨
  c = ' ' ∨ c = ' ' ∨ c = ' ' ∨ c = ' ' ∨ c = ' ' ∨
  c = ' ' ∨ c = '　'

/-- ASCII digit, the regex class `[0-9]`. -/
def isDigitCh (c : Char) : Bool := '0' ≤ c ∧ c ≤ '9'

/-- ASCII letter, the regex class `[a-zA-Z]` used by the row filter. -/
def isAlphaCh (c : Char) : Bool := ('a' ≤ c ∧ c ≤ 'z') ∨ ('A' ≤ c ∧ c ≤ 'Z')

/-- The regex class `[A-z\s]` of the script's metadata-label pattern:
every character between `A` (65) and `z` (122) — which also contains
the six punctuation characters between `Z` and `a` — or whitespace. -/
def isLabelCh (c : Char) : Bool := ('A' ≤ c ∧ c ≤ 'z') ∨ isSpaceCh c

/-! ## String helpers (Python semantics, structural recursion) -/

/-- `str.strip()`: drop whitespace from both ends. -/
def pyStripL (l : List Char) : List Char :=
  List.dropWhile isSpaceCh (List.reverse (List.dropWhile isSpaceCh (List.reverse l)))

def pyStripS (s : String) : String := ⟨pyStripL s.data⟩

/-- `str.replace('\xa0', r)` for a single-character replacement. -/
def replaceNbspL (r : Char) (l : List Char) : List Char :=
  l.map (fun c => if c = '\xa0' then r else c)

/-- `str.split(sep)` for a single-character separator (Python splits on
every occurrence; the empty string yields `[""]`). -/
def splitChL (sep : Char) : List Char → List (List Char)
  | [] => [[]]
  | c :: rest =>
    if c = sep then [] :: splitChL sep rest
    else
      match splitChL sep rest with
      | r :: rs => (c :: r) :: rs
      | [] => [[c]]

def splitColonS (s : String) : List String := (splitChL ':' s.data).map List.asString

/-- `str.split("; ")`, the separator used by `css_to_dict`. -/
def splitSemiSpL : List Char → List (List Char)
  | ';' :: ' ' :: rest => [] :: splitSemiSpL rest
  | c :: rest =>
    match splitSemiSpL rest with
    | r :: rs => (c :: r) :: rs
    | [] => [[c]]
  | [] => [[]]

/-- `str.replace("px", "")`: delete every occurrence of `px`, scanning
left to right. -/
def replacePxL : List Char → List Char
  | 'p' :: 'x' :: rest => replacePxL rest
  | c :: rest => c :: replacePxL rest
  | [] => []

/-- `re.split(r'\|+', s)`: split on maximal runs of pipe characters. -/
def splitPipesL : List Char → List (List Char)
  | [] => [[]]
  | '|' :: rest =>
    match rest, splitPipesL rest with
    | '|' :: _, r => r
    | _, r :: rs => [] :: r :: rs
    | _, [] => [[], []]
  | c :: rest =>
    match splitPipesL rest with
    | r :: rs => (c :: r) :: rs
    | [] => [[c]]

/-- `re.sub(r' +', r' ', s)`: collapse runs of spaces to one space (a
leading space of a run is dropped while another space follows). -/
def collapseSpL : List Char → List Char
  | [] => []
  | c :: rest =>
    if c = ' ' ∧ rest.head? = some ' ' then collapseSpL rest
    else c :: collapseSpL rest

def collapseSpS (s : String) : String := ⟨collapseSpL s.data⟩

/-- The pandas `Series.replace(r' +', '', regex=True)` on string cells:
`re.sub(r' +', '', s)`, i.e. delete every space. -/
def removeSpacesL (l : List Char) : List Char := l.filter (fun c => c ≠ ' ')

def removeSpacesS (s : String) : String := ⟨removeSpacesL s.data⟩

/-- `re.search("[a-zA-Z]", s)` succeeds: `Series.str.contains("[a-zA-Z]")`. -/
def containsAlphaS (s : String) : Bool := s.data.any isAlphaCh

/-- `re.search(r'--+', s)` succeeds: the string contains two consecutive
dashes somewhere (the regex needs at least two to match). -/
def hasDoubleDashL : List Char → Bool
  | '-' :: '-' :: _ => true
  | _ :: rest => hasDoubleDashL rest
  | [] => false

def hasDoubleDashS (s : String) : Bool := hasDoubleDashL s.data

/-- `re.match(r'[A-z\s]+:(?![0-9])', s) != None`: a non-empty run of
`[A-z\s]` characters at the start of `s`, then a colon, then not a digit.
Because `:` is not in the class, the greedy run is forced and no
backtracking can produce a different outcome. -/
def matchesLabelL (l : List Char) : Bool :=
  let run := l.takeWhile isLabelCh
  run ≠ [] &&
    match l.dropWhile isLabelCh with
    | ':' :: r =>
      match r with
      | c :: _ => !isDigitCh c
      | [] => true
    | _ => false

def matchesLabelS (s : String) : Bool := matchesLabelL s.data

/-- `s[:-1]`: drop the final character (empty string stays empty). -/
def dropLastS (s : String) : String := ⟨s.data.dropLast⟩

/-- `list.index(x)` for a list that contains `x` (Python returns the
index of the first occurrence). -/
def listIndexOf (x : String) : List String → Nat
  | [] => 0
  | y :: ys => if y = x then 0 else 1 + listIndexOf x ys

/-- `" ".join(...)` of a token tuple. -/
def joinSpace : List String → String
  | [] => ""
  | [a] => a
  | a :: rest => a ++ " " ++ joinSpace rest

/-! ## Errors -/

/-- The Python exceptions that `main` can raise, by site:
`cssIndex` — `IndexError` in `css_to_dict` (declaration without a colon);
`missingKey` — `KeyError` on the style dictionary (`font`/`top`/`left`);
`intParse` — `ValueError` from `int(...)` on a non-numeric coordinate;
`emptyTitles` — `ValueError` from `max()` when no header fragment exists;
`rowIndex` — `IndexError` from `val[val.index(i)+1]` in the metadata loop;
`missingDate` — `KeyError` from `metadata_dict["Date"]`;
`dateFormat` — `ValueError` from `datetime.strptime`;
`colLen` — pandas `ValueError` assigning a wrong-length column list;
`dupCol` — pandas `ValueError` from `insert` on an existing column. -/
inductive Err
  | cssIndex
  | missingKey (k : String)
  | intParse (s : String)
  | emptyTitles
  | rowIndex
  | missingDate
  | dateFormat (s : String)
  | colLen
  | dupCol (k : String)
deriving DecidableEq

/-- The errors that can only arise while decoding a fragment's style
declaration (the spec's `MalformedStyleError` family). -/
def Err.isStyleErr : Err → Bool
  | .cssIndex => true
  | .missingKey _ => true
  | .intParse _ => true
  | _ => false

/-! ## Style Decoder (`css_to_dict`, `get_coordinates`, `get_index`) -/

/-- `int(s)`: strip whitespace, optional sign, then decimal digits. -/
def pyInt (s : String) : Except Err Int :=
  let l := pyStripL s.data
  let signAndDigits : Bool × List Char :=
    match l with
    | '-' :: rest => (true, rest)
    | '+' :: rest => (false, rest)
    | _ => (false, l)
  if signAndDigits.2 ≠ [] ∧ signAndDigits.2.all isDigitCh then
    let n : Nat := signAndDigits.2.foldl (fun a c => a * 10 + (c.toNat - 48)) 0
    pure (if signAndDigits.1 then -(n : Int) else (n : Int))
  else .error (Err.intParse s)

/-- Python-dict lookup on the association list built by `css_to_dict`:
the latest assignment to a key wins. -/
def dictGet (d : List (String × String)) (k : String) : Except Err String :=
  match d.reverse.find? (fun p => p.1 = k) with
  | some p => pure p.2
  | none => .error (Err.missingKey k)

/-- `css_to_dict`: split the declaration list on `"; "`; skip empty
segments; for the rest record `(elet[0], elet[1])` — the text before the
first colon and the text between the first and second colon.  A non-empty
segment without a colon raises `IndexError` (`elet[1]`). -/
def css_to_dict (css : String) : Except Err (List (String × String)) :=
  (splitSemiSpL css.data).foldlM
    (fun out seg =>
      let elet := (splitChL ':' seg).map List.asString
      if elet = [""] then pure out
      else
        match elet with
        | k :: v :: _ => pure (out ++ [(k, v)])
        | _ => .error Err.cssIndex)
    []

/-- `get_coordinates`: read `top` and `left`, strip the `px` suffix,
parse as integers. -/
def get_coordinates (d : List (String × String)) : Except Err (Int × Int) := do
  let t ← dictGet d "top"
  let i ← pyInt ⟨replacePxL t.data⟩
  let lf ← dictGet d "left"
  let j ← pyInt ⟨replacePxL lf.data⟩
  pure (i, j)

def get_index (css : String) : Except Err (Int × Int) := do
  get_coordinates (← css_to_dict css)

/-! ## Fragments and the classification loop (lines 96–103) -/

/-- One parsed `<label>` element: its inline style declaration and its
text (`i.string`, absent when the element has no single text child). -/
structure Fragment where
  style : String
  text : Option String
deriving DecidableEq

/-- The cell text stored in `indexed_data`:
`i.string.strip().replace('\xa0', ' ')`. -/
def cellOf (t : String) : String := ⟨replaceNbspL ' ' (pyStripL t.data)⟩

/-- The token list appended to `_col_titles` for a header-styled label:
`re.split(r'\|+', i.string.strip().replace('\xa0', '|'))`. -/
def titleTokensOf (t : String) : List String :=
  (splitPipesL (replaceNbspL '|' (pyStripL t.data))).map List.asString

/-- State of the scraping loop: `(indexed_data, _col_titles)`. -/
abbrev ScrapeState := List ((Int × Int) × String) × List (List String)

/-- One iteration of the loop over `Label_elets`: skip labels whose
`string` is `None`; look up the `font` style property (KeyError when
absent); header-styled labels additionally contribute a token list; every
surviving label is appended to `indexed_data` with its coordinates. -/
def fragStep (acc : ScrapeState) (f : Fragment) : Except Err ScrapeState :=
  match f.text with
  | none => pure acc
  | some t => do
    let d ← css_to_dict f.style
    let font ← dictGet d "font"
    let titles :=
      if font = "bold 12px verdana" then acc.2 ++ [titleTokensOf t] else acc.2
    let ij ← get_index f.style
    pure (acc.1 ++ [(ij, cellOf t)], titles)

def processFragments (frags : List Fragment) : Except Err ScrapeState :=
  frags.foldlM fragStep ([], [])

/-! ## Header Reconstructor (lines 106–123) -/

/-- `max(len(x) for x in _col_titles)`: `ValueError` on an empty list. -/
def maxTitleLen (ts : List (List String)) : Except Err Nat :=
  match ts with
  | [] => .error Err.emptyTitles
  | _ => pure ((ts.map List.length).foldl max 0)

/-- The selection loop over `_col_titles`: skip `['']`, skip lists
shorter than the maximum, break once two survivors are collected. -/
def pickTitles (maxLen : Nat) (acc : List (List String)) :
    List (List String) → List (List String)
  | [] => acc
  | i :: rest =>
    if i = [""] then pickTitles maxLen acc rest
    else if i.length < maxLen then pickTitles maxLen acc rest
    else if acc.length = 2 then acc
    else pickTitles maxLen (acc ++ [i]) rest

/-- `zip(*col_titles)`: positional tuples, truncated to the shortest
list; `zip()` of no lists is empty. -/
def zipMin : List (List String) → List (List String)
  | [] => []
  | [l] => l.map (fun a => [a])
  | l :: rest => ((l.zip (zipMin rest)).map (fun p => p.1 :: p.2))

/-- Lines 106–123: survivors, zipped, space-joined, `"TIME"` prepended. -/
def headerPhase (ts : List (List String)) : Except Err (List String) := do
  let m ← maxTitleLen ts
  pure ("TIME" :: (zipMin (pickTitles m [] ts)).map joinSpace)

/-! ## Grid Assembler (lines 127–157) -/

/-- `sorted(set(row indices))`: the distinct row coordinates, ascending. -/
def row_indices_list (idx : List ((Int × Int) × String)) : List Int :=
  List.insertionSort (· ≤ ·) (idx.map (fun p => p.1.1)).dedup

/-- `matrix_dict[i]`: the data points whose row coordinate is `i`, in
encounter order. -/
def matrixRow (idx : List ((Int × Int) × String)) (i : Int) :
    List ((Int × Int) × String) :=
  idx.filter (fun p => p.1.1 = i)

/-- One row of `sorted_rows_dict`: the row's data points sorted (stably)
by column coordinate, projected to their text. -/
def sortedRow (idx : List ((Int × Int) × String)) (i : Int) : List String :=
  (List.insertionSort (fun a b => a.1.2 ≤ b.1.2) (matrixRow idx i)).map (fun p => p.2)

/-- `sorted_rows_dict`: row coordinate ↦ ordered cell texts, keys
ascending. -/
def sorted_rows_dict (idx : List ((Int × Int) × String)) : List (Int × List String) :=
  (row_indices_list idx).map (fun i => (i, sortedRow idx i))

/-- The RawGrid: the rows of `sorted_rows_dict` in key order. -/
def rawGridOf (frags : List Fragment) : Except Err (List (List String)) := do
  let st ← processFragments frags
  pure ((sorted_rows_dict st.1).map (fun p => p.2))

/-- The rows from which line 177 builds the DataFrame that the
normalisation steps (lines 179–192) consume: exactly the rows of
`sorted_rows_dict` — the metadata loop reads them but removes nothing. -/
def normalizerInputRows (frags : List Fragment) : Except Err (List (List String)) := do
  let st ← processFragments frags
  pure ((sorted_rows_dict st.1).map (fun p => p.2))

/-! ## Metadata Extractor (lines 159–173) -/

/-- Python-dict insertion: updating an existing key keeps its position,
a new key is appended. -/
def dictInsert (md : List (String × String)) (k v : String) : List (String × String) :=
  if md.any (fun p => p.1 = k) then
    md.map (fun p => if p.1 = k then (p.1, v) else p)
  else md ++ [(k, v)]

/-- The body of the multi-cell metadata loop, for one cell `i` of `val`:
`metadata_dict[re.sub(.., i[:-1])] = re.sub(.., val[val.index(i)+1])`. -/
def metaCellStep (row : List String) (acc : List (String × String))
    (cell : String) : Except Err (List (String × String)) :=
  if matchesLabelS cell then
    match row.get? (listIndexOf cell row + 1) with
    | some v => pure (dictInsert acc (collapseSpS (dropLastS cell)) (collapseSpS v))
    | none => .error Err.rowIndex
  else pure acc

/-- One iteration of the metadata loop over `sorted_rows_dict`.
Single-cell rows matching the label pattern are split on every colon:
`datum[0]` and `datum[1]` are the text before the first colon and
between the first and second colon.  Multi-cell rows: every cell
matching the pattern stores the cell after the first occurrence of its
text — `IndexError` when that is one past the end of the row. -/
def metaStep (md : List (String × String)) (row : List String) :
    Except Err (List (String × String)) :=
  match row with
  | [c] =>
    if matchesLabelS c then
      match splitColonS c with
      | d0 :: d1 :: _ => pure (dictInsert md (pyStripS d0) (pyStripS d1))
      | _ => .error Err.rowIndex
    else pure md
  | _ => row.foldlM (metaCellStep row) md

def extractMeta (rows : List (List String)) : Except Err (List (String × String)) :=
  rows.foldlM metaStep []

/-! ## `datetime.strptime(s, "%I:%M %p %a %b %d, %Y")` -/

structure DateTime where
  year : Nat
  month : Nat
  day : Nat
  hour : Nat
  minute : Nat
deriving DecidableEq

def lowerCh (c : Char) : Char :=
  if 'A' ≤ c ∧ c ≤ 'Z' then Char.ofNat (c.toNat + 32) else c

/-- `%I` — one or two digits, hour 1–12, optional leading zero. -/
def parseHour12 (l : List Char) : Option (Nat × List Char) :=
  let ds := l.takeWhile isDigitCh
  let rest := l.dropWhile isDigitCh
  match ds with
  | [d] => if d ≠ '0' then some (d.toNat - 48, rest) else none
  | [d1, d2] =>
    if (d1 = '1' ∧ '0' ≤ d2 ∧ d2 ≤ '2') ∨ (d1 = '0' ∧ d2 ≠ '0') then
      some ((d1.toNat - 48) * 10 + (d2.toNat - 48), rest)
    else none
  | _ => none

/-- `%M` — one or two digits, minute 0–59. -/
def parseMinute (l : List Char) : Option (Nat × List Char) :=
  let ds := l.takeWhile isDigitCh
  let rest := l.dropWhile isDigitCh
  match ds with
  | [d] => some (d.toNat - 48, rest)
  | [d1, d2] =>
    if d1 ≤ '5' then some ((d1.toNat - 48) * 10 + (d2.toNat - 48), rest) else none
  | _ => none

/-- `%d` — one or two digits, day 1–31, optional leading zero. -/
def parseDay (l : List Char) : Option (Nat × List Char) :=
  let ds := l.takeWhile isDigitCh
  let rest := l.dropWhile isDigitCh
  match ds with
  | [d] => if d ≠ '0' then some (d.toNat - 48, rest) else none
  | [d1, d2] =>
    if (d1 = '3' ∧ (d2 = '0' ∨ d2 = '1')) ∨ (d1 = '1' ∨ d1 = '2') ∨
        (d1 = '0' ∧ d2 ≠ '0') then
      some ((d1.toNat - 48) * 10 + (d2.toNat - 48), rest)
    else none
  | _ => none

/-- `%Y` — exactly four digits (more digits are unconverted data). -/
def parseYear (l : List Char) : Option (Nat × List Char) :=
  let ds := l.takeWhile isDigitCh
  let rest := l.dropWhile isDigitCh
  match ds with
  | [d1, d2, d3, d4] =>
    some (((d1.toNat - 48) * 10 + (d2.toNat - 48)) * 100 +
      (d3.toNat - 48) * 10 + (d4.toNat - 48), rest)
  | _ => none

/-- A literal whitespace in the format string matches one or more
whitespace characters. -/
def skipWs (l : List Char) : Option (List Char) :=
  match l with
  | c :: rest => if isSpaceCh c then some (rest.dropWhile isSpaceCh) else none
  | [] => none

def expectCh (x : Char) (l : List Char) : Option (List Char) :=
  match l with
  | c :: rest => if c = x then some rest else none
  | [] => none

/-- `%p` — `AM`/`PM`, case-insensitive; `true` means PM. -/
def parseAmPm (l : List Char) : Option (Bool × List Char) :=
  match l with
  | c1 :: c2 :: rest =>
    if lowerCh c1 = 'a' ∧ lowerCh c2 = 'm' then some (false, rest)
    else if lowerCh c1 = 'p' ∧ lowerCh c2 = 'm' then some (true, rest)
    else none
  | _ => none

/-- `%a` — abbreviated weekday name, case-insensitive; parsed and
discarded (`strptime` does not check consistency with the date). -/
def parseDayName (l : List Char) : Option (List Char) :=
  match l with
  | c1 :: c2 :: c3 :: rest =>
    if [lowerCh c1, lowerCh c2, lowerCh c3] ∈
        [['m','o','n'], ['t','u','e'], ['w','e','d'], ['t','h','u'],
         ['f','r','i'], ['s','a','t'], ['s','u','n']] then
      some rest
    else none
  | _ => none

/-- `%b` — abbreviated month name, case-insensitive. -/
def parseMonth (l : List Char) : Option (Nat × List Char) :=
  match l with
  | c1 :: c2 :: c3 :: rest =>
    match List.findIdx? (fun w => w = [lowerCh c1, lowerCh c2, lowerCh c3])
        [['j','a','n'], ['f','e','b'], ['m','a','r'], ['a','p','r'],
         ['m','a','y'], ['j','u','n'], ['j','u','l'], ['a','u','g'],
         ['s','e','p'], ['o','c','t'], ['n','o','v'], ['d','e','c']] with
    | some k => some (k + 1, rest)
    | none => none
  | _ => none

def isLeapYear (y : Nat) : Bool := (y % 4 = 0 ∧ y % 100 ≠ 0) ∨ y % 400 = 0

def daysInMonth (y m : Nat) : Nat :=
  if m = 2 then (if isLeapYear y then 29 else 28)
  else if m = 4 ∨ m = 6 ∨ m = 9 ∨ m = 11 then 30
  else 31

/-- The `"%I:%M %p"` prefix of the format: hour, minute, PM flag. -/
def parseClock (l : List Char) : Option ((Nat × Nat × Bool) × List Char) :=
  match parseHour12 l with
  | none => none
  | some (h, r1) =>
    match expectCh ':' r1 with
    | none => none
    | some r2 =>
      match parseMinute r2 with
      | none => none
      | some (mi, r3) =>
        match skipWs r3 with
        | none => none
        | some r4 =>
          match parseAmPm r4 with
          | none => none
          | some (pm, r5) => some ((h, mi, pm), r5)

/-- The `" %a %b"` middle of the format: weekday name (checked and
discarded) and month. -/
def parseDayMonth (l : List Char) : Option (Nat × List Char) :=
  match skipWs l with
  | none => none
  | some r6 =>
    match parseDayName r6 with
    | none => none
    | some r7 =>
      match skipWs r7 with
      | none => none
      | some r8 => parseMonth r8

/-- The `" %d, %Y"` tail of the format: day and year. -/
def parseDayYear (l : List Char) : Option ((Nat × Nat) × List Char) :=
  match skipWs l with
  | none => none
  | some r10 =>
    match parseDay r10 with
    | none => none
    | some (dy, r11) =>
      match expectCh ',' r11 with
      | none => none
      | some r12 =>
        match skipWs r12 with
        | none => none
        | some r13 =>
          match parseYear r13 with
          | none => none
          | some (yr, r14) => some ((dy, yr), r14)

/-- The whole format `"%I:%M %p %a %b %d, %Y"`, requiring the entire
string to be consumed, then `datetime(...)` validation of the date. -/
def parseTimestampL (l : List Char) : Option DateTime :=
  match parseClock l with
  | none => none
  | some ((h, mi, pm), r1) =>
    match parseDayMonth r1 with
    | none => none
    | some (mo, r2) =>
      match parseDayYear r2 with
      | none => none
      | some ((dy, yr), r3) =>
        if r3 = [] ∧ mi ≤ 59 ∧ dy ≤ daysInMonth yr mo ∧ 1 ≤ yr then
          some ⟨yr, mo, dy,
            (if pm then (if h = 12 then 12 else h + 12)
             else (if h = 12 then 0 else h)),
            mi⟩
        else none

def parseTimestamp (s : String) : Except Err DateTime :=
  match parseTimestampL s.data with
  | some d => pure d
  | none => .error (Err.dateFormat s)

/-- A metadata value: the extracted strings, except that `"Date"` is
replaced by the parsed timestamp (lines 171–173). -/
inductive MetaVal
  | s (v : String)
  | d (v : DateTime)
deriving DecidableEq

/-- Lines 159–173: run the extraction loop, look up the mandatory
`"Date"` key, parse it, and store the datetime back in place. -/
def metadataPhase (rows : List (List String)) :
    Except Err (List (String × MetaVal)) := do
  let md ← extractMeta rows
  let ts ←
    match md.find? (fun p => p.1 = "Date") with
    | some p => pure p.2
    | none => .error Err.missingDate
  let d ← parseTimestamp ts
  pure (md.map (fun p => if p.1 = "Date" then (p.1, MetaVal.d d) else (p.1, MetaVal.s p.2)))

/-! ## Table Normalizer (lines 176–192) -/

/-- A DataFrame cell: a scraped string, a `NaN` introduced by padding or
by the placeholder replacements, or a broadcast metadata datetime. -/
inductive Cell
  | s (v : String)
  | nan
  | d (v : DateTime)
deriving DecidableEq

/-- `pd.DataFrame.from_dict(..., orient='index')` pads each row with
`NaN` to the width of the longest row. -/
def maxRowLen (rows : List (List String)) : Nat :=
  rows.foldl (fun m r => max m r.length) 0

def padRow (w : Nat) (r : List String) : List Cell :=
  r.map Cell.s ++ List.replicate (w - r.length) Cell.nan

/-- `df[0].str.contains("[a-zA-Z]").fillna(False)`: non-string cells
(NaN) count as `False`. -/
def cellHasAlpha : Cell → Bool
  | .s v => containsAlphaS v
  | _ => false

def firstCell (r : List Cell) : Cell := r.headD Cell.nan

def mapFirst (f : Cell → Cell) : List Cell → List Cell
  | [] => []
  | c :: rest => f c :: rest

/-- `df1[0].replace('', np.nan)`: exact-match replacement. -/
def blankToNan : Cell → Cell
  | .s v => if v = "" then .nan else .s v
  | c => c

/-- `df1[0].replace(r'--+', np.nan, regex=True)`: with a non-string
replacement value pandas replaces the whole cell when the regex matches
anywhere in it. -/
def dashToNan : Cell → Cell
  | .s v => if hasDoubleDashS v then .nan else .s v
  | c => c

/-- `df1[0].replace(r' +', '', regex=True)`: with a string replacement
pandas substitutes substring-wise, deleting all spaces. -/
def stripSpacesCell : Cell → Cell
  | .s v => .s (removeSpacesS v)
  | c => c

/-- Lines 179–186: the row filters and first-cell rewrites, in program
order, applied to the padded grid. -/
def normalizeRows (rows : List (List String)) : List (List Cell) :=
  let w := maxRowLen rows
  let padded := rows.map (padRow w)
  let r1 := padded.filter (fun r => !cellHasAlpha (firstCell r))
  let r2 := r1.map (mapFirst blankToNan)
  let r3 := r2.map (mapFirst dashToNan)
  let r4 := r3.filter (fun r => !(firstCell r = Cell.nan))
  r4.map (mapFirst stripSpacesCell)

structure FinalTable where
  cols : List String
  rows : List (List Cell)
deriving DecidableEq

def metaCell : MetaVal → Cell
  | .s v => .s v
  | .d v => .d v

/-- Lines 191–192: `df1.insert(0, k, [v, ...])` for each metadata item,
in iteration order; pandas raises when the column already exists. -/
def insertMeta (md : List (String × MetaVal)) (t : FinalTable) :
    Except Err FinalTable :=
  md.foldlM
    (fun t kv =>
      if t.cols.contains kv.1 then .error (Err.dupCol kv.1)
      else pure { cols := kv.1 :: t.cols,
                  rows := t.rows.map (fun r => metaCell kv.2 :: r) })
    t

/-- Lines 176–192: build the DataFrame, filter, assign the column names
(pandas raises unless the lengths agree), prepend metadata columns. -/
def normalizeTable (rows : List (List String)) (cols : List String)
    (md : List (String × MetaVal)) : Except Err FinalTable :=
  let nr := normalizeRows rows
  if cols.length = maxRowLen rows then
    insertMeta md { cols := cols, rows := nr }
  else .error Err.colLen

/-! ## The whole pipeline (`main`, lines 44–200) -/

/-- The core transform of `main` on the parsed label fragments: the
classification loop, header reconstruction, grid assembly, metadata
extraction and table normalisation, in program order.  An `.error`
result models the run aborting before `to_csv` writes any output. -/
def mainRun (frags : List Fragment) : Except Err FinalTable := do
  let st ← processFragments frags
  let cols ← headerPhase st.2
  let rows := (sorted_rows_dict st.1).map (fun p => p.2)
  let md ← metadataPhase rows
  normalizeTable rows cols md

/-- The HeaderSpec produced for an input (the header phase alone). -/
def headerSpecOf (frags : List Fragment) : Except Err (List String) := do
  let st ← processFragments frags
  headerPhase st.2

/-- The MetadataRecord produced for an input (up to the Date fix-up). -/
def metadataOf (frags : List Fragment) : Except Err (List (String × MetaVal)) := do
  let st ← processFragments frags
  metadataPhase ((sorted_rows_dict st.1).map (fun p => p.2))

/-! ## Definitions taken from the specification's wording

These re-state notions in the words of the spec/claims; they are compared
against the code-derived definitions above. -/

/-- A fragment is header-styled when its decoded `font` property equals
the bold/verdana signature (spec §4.2). -/
def isHeaderStyled (f : Fragment) : Bool :=
  match css_to_dict f.style with
  | .ok d =>
    match dictGet d "font" with
    | .ok v => v = "bold 12px verdana"
    | .error _ => false
  | .error _ => false

/-- The spec's data fragments: not header-styled and with non-empty
trimmed text (claim C2's parenthesis). -/
def specDataFragments (frags : List Fragment) : List Fragment :=
  frags.filter fun f =>
    match f.text with
    | some t => !(pyStripS t = "") && !isHeaderStyled f
    | none => false

/-- The number of distinct row coordinates among the spec's data
fragments. -/
def specDistinctDataRowCount (frags : List Fragment) : Nat :=
  ((specDataFragments frags).filterMap fun f =>
    match get_index f.style with
    | .ok ij => some ij.1
    | .error _ => none).dedup.length

/-- Spec §4.5: a row is a metadata row when it is a single cell matching
the label pattern, or has several cells at least one of which matches. -/
def isMetadataRow (row : List String) : Bool :=
  match row with
  | [c] => matchesLabelS c
  | _ => row.any matchesLabelS

/-- A value consisting solely of repeated dash characters (two or more),
the spec's placeholder form. -/
def allDashS (s : String) : Bool :=
  s.data ≠ [] && s.data.all (fun c => c = '-') && 2 ≤ s.data.length

/-- The text before the first colon of a string. -/
def takeUntilColonS (s : String) : String := ⟨s.data.takeWhile (fun c => c ≠ ':')⟩

/-- Claim C6's selection: discard token lists that are empty or shorter
than the maximum length, take the first two survivors. -/
def specSurvivors (ts : List (List String)) (m : Nat) : List (List String) :=
  (ts.filter fun i => !(i = [""]) && !(i.length < m)).take 2

/-- The maximum token-list length (only used under `ts ≠ []`). -/
def specMaxLen (ts : List (List String)) : Nat := (ts.map List.length).foldl max 0

/-- Claim C6's combination step: zip the (at most two) surviving lists
positionally and join each tuple with a single space. -/
def specZipJoin : List (List String) → List String
  | [] => []
  | [l] => l
  | l1 :: l2 :: _ => List.zipWith (fun a b => a ++ " " ++ b) l1 l2

/-! ## Concrete inputs used by witnesses and counterexamples -/

/-- A small but complete report: two header labels (wrapped column
titles), a split `Date:` metadata row, and one data row. -/
def masterFrags : List Fragment :=
  [ ⟨"font:bold 12px verdana; top:0px; left:0px", some "A\xa0B"⟩,
    ⟨"font:bold 12px verdana; top:10px; left:0px", some "C\xa0D"⟩,
    ⟨"font:normal; top:20px; left:0px", some "Date:"⟩,
    ⟨"font:normal; top:20px; left:50px", some "10:00 AM Mon Jan 01, 2024"⟩,
    ⟨"font:normal; top:30px; left:0px", some "1:00"⟩,
    ⟨"font:normal; top:30px; left:50px", some "5"⟩,
    ⟨"font:normal; top:30px; left:100px", some "7"⟩ ]

/-- `masterFrags` plus a data row whose first cell is `"- -"` (a dash,
an interior non-breaking space, a dash). -/
def dashFrags : List Fragment :=
  masterFrags ++
  [ ⟨"font:normal; top:40px; left:0px", some "-\xa0-"⟩,
    ⟨"font:normal; top:40px; left:50px", some "8"⟩,
    ⟨"font:normal; top:40px; left:100px", some "9"⟩ ]

/-- The parsed master timestamp. -/
def masterDate : DateTime := ⟨2024, 1, 1, 10, 0⟩

/-- The final table `main` produces for `masterFrags`. -/
def masterTable : FinalTable :=
  ⟨["Date", "TIME", "A C", "B D"],
   [[Cell.d masterDate, Cell.s "1:00", Cell.s "5", Cell.s "7"]]⟩

/-- One header-styled fragment on its own row plus one data fragment. -/
def headerRowFrags : List Fragment :=
  [ ⟨"font:bold 12px verdana; top:0px; left:0px", some "H"⟩,
    ⟨"font:normal; top:10px; left:0px", some "1"⟩ ]

/-- A single whitespace-only fragment. -/
def wsFrags : List Fragment := [⟨"font:normal; top:0px; left:0px", some " "⟩]

/-- Two fragments claiming the same grid cell `(0, 0)`. -/
def dupFrags : List Fragment :=
  [ ⟨"font:normal; top:0px; left:0px", some "A"⟩,
    ⟨"font:normal; top:0px; left:0px", some "B"⟩ ]

/-- A fragment whose style has no numeric `top` value (the spec's
malformed-style scenario). -/
def badStyleFrags : List Fragment := [⟨"top: px; left: 10px", some "x"⟩]

/-- A grid row whose final cell matches the label pattern. -/
def trailingLabelFrags : List Fragment :=
  [ ⟨"font:normal; top:0px; left:0px", some "x"⟩,
    ⟨"font:normal; top:0px; left:50px", some "A:"⟩ ]

/-- The single-cell metadata row of the spec's Date scenario. -/
def dateScenarioRow : List String := ["Date: 10:00 AM Mon Jan 01, 2024"]

/-- The scrape state `main` computes for `masterFrags`. -/
def masterScrape : ScrapeState :=
  ([((0, 0), "A B"), ((10, 0), "C D"), ((20, 0), "Date:"),
    ((20, 50), "10:00 AM Mon Jan 01, 2024"), ((30, 0), "1:00"),
    ((30, 50), "5"), ((30, 100), "7")],
   [["A", "B"], ["C", "D"]])

/-- The raw grid for `masterFrags`. -/
def masterGrid : List (List String) :=
  [["A B"], ["C D"], ["Date:", "10:00 AM Mon Jan 01, 2024"], ["1:00", "5", "7"]]

/-- The metadata row of `masterFrags`, as it appears in the grid. -/
def masterDateRow : List String := ["Date:", "10:00 AM Mon Jan 01, 2024"]

/-! ## Generic lemmas about the `Except` folds -/

/-- When some element of the list makes the step fail from every
accumulator, the whole fold fails. -/
theorem foldlM_error_of_mem {α β : Type} (g : β → α → Except Err β) (x : α)
    (l : List α) (hx : x ∈ l) (hfail : ∀ acc, ∃ e, g acc x = .error e) :
    ∀ acc, ∃ e, List.foldlM g acc l = .error e := by
  induction l with
  | nil => cases hx
  | cons y ys ih =>
    intro acc
    rcases List.mem_cons.mp hx with h | h
    · subst h
      obtain ⟨e, he⟩ := hfail acc
      exact ⟨e, by simp [List.foldlM_cons, he, Bind.bind, Except.bind]⟩
    · cases hg : g acc y with
      | error e => exact ⟨e, by simp [List.foldlM_cons, hg, Bind.bind, Except.bind]⟩
      | ok acc' =>
        obtain ⟨e, he⟩ := ih h acc'
        exact ⟨e, by simp [List.foldlM_cons, hg, Bind.bind, Except.bind, he]⟩

/-- Every error of the fold is an error of some step. -/
theorem foldlM_error_kind {α β : Type} (g : β → α → Except Err β)
    (P : Err → Prop) (hg : ∀ acc x e, g acc x = .error e → P e) :
    ∀ (l : List α) (acc : β) (e : Err), List.foldlM g acc l = .error e → P e := by
  intro l
  induction l with
  | nil =>
    intro acc e h
    simp [List.foldlM_nil, pure, Except.pure] at h
  | cons y ys ih =>
    intro acc e h
    rw [List.foldlM_cons] at h
    cases hg0 : g acc y with
    | error e0 =>
      rw [hg0] at h
      simp [Bind.bind, Except.bind] at h
      exact h ▸ hg acc y e0 hg0
    | ok acc' =>
      rw [hg0] at h
      simp only [Bind.bind, Except.bind] at h
      exact ih acc' e h

/-! ## Error analysis of the style decoder -/

theorem css_to_dict_error (s : String) (e : Err)
    (h : css_to_dict s = .error e) : e = Err.cssIndex := by
  unfold css_to_dict at h
  refine foldlM_error_kind _ (fun e => e = Err.cssIndex) ?_ _ _ e h
  intro acc x e' hx
  dsimp only at hx
  split at hx
  · simp [pure, Except.pure] at hx
  · split at hx
    · simp [pure, Except.pure] at hx
    · simp at hx
      exact hx.symm

theorem dictGet_error (d : List (String × String)) (k : String) (e : Err)
    (h : dictGet d k = .error e) : e = Err.missingKey k := by
  unfold dictGet at h
  cases hf : List.find? (fun p => p.1 = k) d.reverse with
  | some p => rw [hf] at h; simp [pure, Except.pure] at h
  | none => rw [hf] at h; simp at h; exact h.symm

theorem pyInt_error (s : String) (e : Err)
    (h : pyInt s = .error e) : e = Err.intParse s := by
  unfold pyInt at h
  dsimp only at h
  split at h
  · simp [pure, Except.pure] at h
  · simp at h
    exact h.symm

theorem get_index_error (css : String) (e : Err)
    (h : get_index css = .error e) : e.isStyleErr = true := by
  unfold get_index at h
  cases hc : css_to_dict css with
  | error e0 =>
    rw [hc] at h
    simp [Bind.bind, Except.bind] at h
    subst h
    rw [css_to_dict_error css e0 hc]
    rfl
  | ok d =>
    rw [hc] at h
    simp only [Bind.bind, Except.bind] at h
    unfold get_coordinates at h
    cases h1 : dictGet d "top" with
    | error e1 =>
      rw [h1] at h
      simp [Bind.bind, Except.bind] at h
      subst h
      rw [dictGet_error _ _ _ h1]
      rfl
    | ok t =>
      rw [h1] at h
      simp only [Bind.bind, Except.bind] at h
      cases h2 : pyInt ⟨replacePxL t.data⟩ with
      | error e2 =>
        rw [h2] at h
        simp [Bind.bind, Except.bind] at h
        subst h
        rw [pyInt_error _ _ h2]
        rfl
      | ok i =>
        rw [h2] at h
        simp only [Bind.bind, Except.bind] at h
        cases h3 : dictGet d "left" with
        | error e3 =>
          rw [h3] at h
          simp [Bind.bind, Except.bind] at h
          subst h
          rw [dictGet_error _ _ _ h3]
          rfl
        | ok lf =>
          rw [h3] at h
          simp only [Bind.bind, Except.bind] at h
          cases h4 : pyInt ⟨replacePxL lf.data⟩ with
          | error e4 =>
            rw [h4] at h
            simp [Bind.bind, Except.bind] at h
            subst h
            rw [pyInt_error _ _ h4]
            rfl
          | ok j =>
            rw [h4] at h
            simp [Bind.bind, Except.bind, pure, Except.pure] at h

/-! ## The scraping loop: shapes and errors -/

theorem fragStep_ok_shape (acc acc' : ScrapeState) (f : Fragment)
    (h : fragStep acc f = .ok acc') :
    (f.text = none ∧ acc' = acc) ∨
    (∃ t ij, f.text = some t ∧ acc'.1 = acc.1 ++ [(ij, cellOf t)]) := by
  unfold fragStep at h
  cases ht : f.text with
  | none =>
    rw [ht] at h
    simp [pure, Except.pure] at h
    exact Or.inl ⟨rfl, h.symm⟩
  | some t =>
    rw [ht] at h
    refine Or.inr ?_
    cases hc : css_to_dict f.style with
    | error e => rw [hc] at h; simp [Bind.bind, Except.bind] at h
    | ok d =>
      rw [hc] at h
      simp only [Bind.bind, Except.bind] at h
      cases hfont : dictGet d "font" with
      | error e => rw [hfont] at h; simp [Except.bind] at h
      | ok font =>
        rw [hfont] at h
        simp only [Except.bind] at h
        cases hij : get_index f.style with
        | error e => rw [hij] at h; simp [Except.bind] at h
        | ok ij =>
          rw [hij] at h
          simp only [Except.bind, pure, Except.pure, Except.ok.injEq] at h
          exact ⟨t, ij, rfl, by rw [← h]⟩

theorem fragStep_error_isStyle (acc : ScrapeState) (f : Fragment) (e : Err)
    (h : fragStep acc f = .error e) : e.isStyleErr = true := by
  unfold fragStep at h
  cases ht : f.text with
  | none => rw [ht] at h; simp [pure, Except.pure] at h
  | some t =>
    rw [ht] at h
    cases hc : css_to_dict f.style with
    | error e0 =>
      rw [hc] at h
      simp [Bind.bind, Except.bind] at h
      subst h
      rw [css_to_dict_error _ _ hc]
      rfl
    | ok d =>
      rw [hc] at h
      simp only [Bind.bind, Except.bind] at h
      cases hfont : dictGet d "font" with
      | error e1 =>
        rw [hfont] at h
        simp [Except.bind] at h
        subst h
        rw [dictGet_error _ _ _ hfont]
        rfl
      | ok font =>
        rw [hfont] at h
        simp only [Except.bind] at h
        cases hij : get_index f.style with
        | error e2 =>
          rw [hij] at h
          simp [Except.bind] at h
          subst h
          exact get_index_error _ _ hij
        | ok ij =>
          rw [hij] at h
          simp [Except.bind, pure, Except.pure] at h

theorem fragStep_error_of_badIndex (f : Fragment) (t : String) (e0 : Err)
    (ht : f.text = some t) (hb : get_index f.style = .error e0) :
    ∀ acc, ∃ e, fragStep acc f = .error e := by
  intro acc
  unfold fragStep
  rw [ht]
  cases hc : css_to_dict f.style with
  | error e1 => exact ⟨e1, by simp [Bind.bind, Except.bind]⟩
  | ok d =>
    cases hfont : dictGet d "font" with
    | error e1 => exact ⟨e1, by simp [Bind.bind, Except.bind, hfont]⟩
    | ok font =>
      exact ⟨e0, by simp [Bind.bind, Except.bind, hfont, hb]⟩

theorem processFragments_error_isStyle (frags : List Fragment) (e : Err)
    (h : processFragments frags = .error e) : e.isStyleErr = true := by
  exact foldlM_error_kind fragStep (fun e => e.isStyleErr = true)
    (fun acc f e' hx => fragStep_error_isStyle acc f e' hx) frags ([], []) e h

theorem mainRun_error_of_process (frags : List Fragment) (e : Err)
    (h : processFragments frags = .error e) : mainRun frags = .error e := by
  unfold mainRun
  rw [h]
  rfl

/-- C9 (confirmed): a fragment with present text whose style declaration
has no decodable coordinates (missing or non-numeric `top`/`left`, e.g.
`"top: px; left: 10px"`) makes the whole run fail with a style-decoding
error, so control never reaches the CSV export at line 200: no output is
produced.  (The error surfaces at lines 101/103 while the classification
loop decodes that fragment's style, before any later phase runs.) -/
theorem C9_malformed_style_aborts (frags : List Fragment) (f : Fragment)
    (t : String) (e0 : Err) (hmem : f ∈ frags) (ht : f.text = some t)
    (hb : get_index f.style = .error e0) :
    ∃ e, mainRun frags = .error e ∧ e.isStyleErr = true := by
  obtain ⟨e, he⟩ :=
    foldlM_error_of_mem fragStep f frags hmem
      (fragStep_error_of_badIndex f t e0 ht hb) ([], [])
  exact ⟨e, mainRun_error_of_process frags e he,
    processFragments_error_isStyle frags e he⟩

/-- Witness for C9: the spec's own malformed style string, on a fragment
with text, aborts the run with a style error. -/
theorem C9_witness :
    ∃ e, mainRun badStyleFrags = .error e ∧ e.isStyleErr = true :=
  C9_malformed_style_aborts badStyleFrags ⟨"top: px; left: 10px", some "x"⟩
    "x" (Err.intParse " ") (by decide) rfl rfl

/-! ## Grid shape: row count and ordering -/

theorem sorted_rows_keys (idx : List ((Int × Int) × String)) :
    (sorted_rows_dict idx).map Prod.fst = row_indices_list idx := by
  unfold sorted_rows_dict
  rw [List.map_map]
  show List.map (fun i => i) _ = _
  exact List.map_id _

theorem row_indices_length (idx : List ((Int × Int) × String)) :
    (row_indices_list idx).length = (idx.map (fun p => p.1.1)).dedup.length :=
  (List.perm_insertionSort _ _).length_eq

theorem row_indices_sorted (idx : List ((Int × Int) × String)) :
    List.Pairwise (· < ·) (row_indices_list idx) := by
  have hs : List.Sorted (· ≤ ·) (row_indices_list idx) :=
    List.sorted_insertionSort _ _
  have hn : (row_indices_list idx).Nodup :=
    (List.perm_insertionSort _ _).symm.nodup (List.nodup_dedup _)
  exact hs.lt_of_le hn

/-- C2 (amended): for every fragment set whose styles decode, the RawGrid
has one row per distinct row coordinate of the *kept* fragments — all
labels with present text, header-styled and whitespace-only ones included
(the code appends every such label to `indexed_data`, line 103) — and the
rows are in strictly ascending row-coordinate order.  The original
claim's restriction to non-header-styled, non-blank fragments fails, see
the counterexample. -/
theorem C2_grid_row_count (frags : List Fragment) (st : ScrapeState)
    (h : processFragments frags = .ok st) :
    (sorted_rows_dict st.1).length = (st.1.map (fun p => p.1.1)).dedup.length ∧
    List.Pairwise (· < ·) ((sorted_rows_dict st.1).map Prod.fst) := by
  constructor
  · unfold sorted_rows_dict
    rw [List.length_map]
    exact row_indices_length st.1
  · rw [sorted_rows_keys]
    exact row_indices_sorted st.1

/-- Witness for C2 (amended) at the master input. -/
theorem C2_witness :
    (sorted_rows_dict masterScrape.1).length =
      (masterScrape.1.map (fun p => p.1.1)).dedup.length ∧
    List.Pairwise (· < ·) ((sorted_rows_dict masterScrape.1).map Prod.fst) :=
  C2_grid_row_count masterFrags masterScrape rfl

/-- C2 (counterexample): a header-styled fragment occupies its own grid
row, so the RawGrid has 2 rows while only 1 distinct row coordinate
exists among the claim's data fragments (non-header-styled, non-blank). -/
theorem C2_counterexample :
    rawGridOf headerRowFrags = .ok [["H"], ["1"]] ∧
    specDistinctDataRowCount headerRowFrags = 1 ∧
    ([["H"], ["1"]] : List (List String)).length ≠
      specDistinctDataRowCount headerRowFrags :=
  ⟨rfl, rfl, by decide⟩

/-! ## C4: which fragments are discarded -/

theorem processFragments_count (frags : List Fragment) :
    ∀ (acc st : ScrapeState), List.foldlM fragStep acc frags = .ok st →
      st.1.length = acc.1.length +
        (frags.filter (fun f => f.text.isSome)).length := by
  induction frags with
  | nil =>
    intro acc st h
    simp [List.foldlM_nil, pure, Except.pure] at h
    subst h
    simp
  | cons f fs ih =>
    intro acc st h
    rw [List.foldlM_cons] at h
    cases hf : fragStep acc f with
    | error e => rw [hf] at h; simp [Bind.bind, Except.bind] at h
    | ok acc' =>
      rw [hf] at h
      simp only [Bind.bind, Except.bind] at h
      have hrest := ih acc' st h
      rcases fragStep_ok_shape acc acc' f hf with ⟨ht, rfl⟩ | ⟨t, ij, ht, hlen⟩
      · simp [List.filter_cons, ht, hrest]
      · have hlen' : acc'.1.length = acc.1.length + 1 := by
          rw [hlen]; simp
        rw [hrest, hlen']
        simp [List.filter_cons, ht]
        omega

/-- C4 (amended): the classification loop discards exactly the labels
whose text is absent (`i.string == None`, line 99); every fragment with
present text — even whitespace-only — contributes one entry to
`indexed_data` and hence one cell to the grid.  The original claim's
discarding of whitespace-only fragments fails, see the counterexample. -/
theorem C4_all_present_text_kept (frags : List Fragment) (st : ScrapeState)
    (h : processFragments frags = .ok st) :
    st.1.length = (frags.filter (fun f => f.text.isSome)).length := by
  have := processFragments_count frags ([], []) st h
  simpa using this

/-- Witness for C4 (amended): the whitespace-only fragment is kept. -/
theorem C4_witness :
    ([((0, 0), "")] : List ((Int × Int) × String)).length =
      (wsFrags.filter (fun f => f.text.isSome)).length :=
  C4_all_present_text_kept wsFrags ([((0, 0), "")], []) rfl

/-- C4 (counterexample): a fragment whose text is a single space —
empty after trimming — still contributes a cell (the empty string) to
the RawGrid, contradicting the claim that it is discarded. -/
theorem C4_counterexample :
    rawGridOf wsFrags = .ok [[""]] ∧ pyStripS " " = "" :=
  ⟨rfl, rfl⟩

/-! ## C5: duplicate cells -/

/-- C5 (amended): when fragments share both coordinates, neither claimed
behavior occurs: grid assembly cannot fail, and nothing is overwritten —
each grid row holds the texts of *all* fragments with its row coordinate
(the stable sort keeps duplicates, in encounter order). -/
theorem C5_duplicates_both_kept (idx : List ((Int × Int) × String)) (i : Int) :
    (sortedRow idx i).Perm ((matrixRow idx i).map (fun p => p.2)) ∧
    (sortedRow idx i).length = (matrixRow idx i).length := by
  have hp := List.perm_insertionSort (fun a b => a.1.2 ≤ b.1.2) (matrixRow idx i)
  constructor
  · exact hp.map (fun p => p.2)
  · unfold sortedRow
    rw [List.length_map, hp.length_eq]

/-- C5 (counterexample): two fragments at cell `(0, 0)` with texts `"A"`
and `"B"`: the grid row keeps both (`["A", "B"]`), so the later fragment
does not overwrite the earlier one and no error is raised. -/
theorem C5_counterexample :
    rawGridOf dupFrags = .ok [["A", "B"]] ∧
    (["A", "B"] : List String) ≠ ["B"] :=
  ⟨rfl, by decide⟩

/-! ## C1: metadata rows and the normalizer's input -/

/-- C1 (amended): the script removes nothing between metadata extraction
and DataFrame construction — line 177 builds the DataFrame from the whole
`sorted_rows_dict`, so every matched metadata row still feeds the Table
Normalizer.  (The original claim — that matched rows are removed — fails,
see the counterexample.) -/
theorem C1_metadata_rows_not_removed (frags : List Fragment)
    (st : ScrapeState) (row : List String) (rs : List (List String))
    (hp : processFragments frags = .ok st)
    (hmeta : isMetadataRow row = true)
    (hrow : row ∈ (sorted_rows_dict st.1).map (fun p => p.2))
    (hn : normalizerInputRows frags = .ok rs) :
    row ∈ rs := by
  unfold normalizerInputRows at hn
  rw [hp] at hn
  simp only [Bind.bind, Except.bind, pure, Except.pure, Except.ok.injEq] at hn
  rw [← hn]
  exact hrow

/-- Witness for C1 (amended): the master input's matched `Date` metadata
row is among the rows handed to the normalizer. -/
theorem C1_witness : masterDateRow ∈ masterGrid :=
  C1_metadata_rows_not_removed masterFrags masterScrape masterDateRow
    masterGrid rfl (by decide) (by decide) rfl

/-- C1 (counterexample): for the master input the matched metadata row
`["Date:", "10:00 AM Mon Jan 01, 2024"]` is one of the rows the
normalizer consumes — it was not removed. -/
theorem C1_counterexample :
    normalizerInputRows masterFrags = .ok masterGrid ∧
    isMetadataRow masterDateRow = true ∧
    masterDateRow ∈ masterGrid :=
  ⟨rfl, by decide, by decide⟩

/-! ## C3: the single-cell metadata split -/

theorem asString_data (s : String) : List.asString s.data = s := rfl

theorem splitChL_head (sep : Char) (l : List Char) :
    ∃ rs, splitChL sep l = l.takeWhile (fun c => c ≠ sep) :: rs := by
  induction l with
  | nil => exact ⟨[], rfl⟩
  | cons c cs ih =>
    by_cases hc : c = sep
    · refine ⟨splitChL sep cs, ?_⟩
      simp [splitChL, hc, List.takeWhile_cons]
    · obtain ⟨rs, hrs⟩ := ih
      refine ⟨rs, ?_⟩
      simp [splitChL, hc, hrs, List.takeWhile_cons]

theorem splitChL_append (sep : Char) (a b : List Char)
    (ha : ∀ c ∈ a, c ≠ sep) :
    splitChL sep (a ++ sep :: b) = a :: splitChL sep b := by
  induction a with
  | nil => simp [splitChL]
  | cons c cs ih =>
    have hc : c ≠ sep := ha c (by simp)
    have ih' := ih (fun x hx => ha x (by simp [hx]))
    simp [splitChL, hc, List.cons_append, ih']

/-- C3 (amended): for a single-cell row `a ++ ":" ++ b` matching the
label pattern (with `a` colon-free), the extractor records
label = `a` trimmed and value = *the text between the first and second
colons* trimmed (`val[0].split(":")` splits on every colon and
`datum[1]` is only the segment up to the next colon) — equal to the
claim's "entire text right of the first colon" only when that text has
no further colon.  On the claim's own Date scenario the stored value is
`"10"` and the subsequent strptime aborts the run, see the
counterexample. -/
theorem C3_single_cell_split (md : List (String × String)) (a b : String)
    (ha : ∀ c ∈ a.data, c ≠ ':')
    (hm : matchesLabelS (a ++ ":" ++ b) = true) :
    metaStep md [a ++ ":" ++ b] =
      .ok (dictInsert md (pyStripS a) (pyStripS (takeUntilColonS b))) := by
  have hdata : (a ++ ":" ++ b).data = a.data ++ ':' :: b.data := by
    simp [String.data_append]
  have hsplit : splitColonS (a ++ ":" ++ b) =
      a :: (splitChL ':' b.data).map List.asString := by
    unfold splitColonS
    rw [hdata, splitChL_append ':' a.data b.data ha]
    simp [asString_data]
  obtain ⟨rs, hrs⟩ := splitChL_head ':' b.data
  have hstep : metaStep md [a ++ ":" ++ b] =
      (if matchesLabelS (a ++ ":" ++ b) = true then
        match splitColonS (a ++ ":" ++ b) with
        | d0 :: d1 :: _ => pure (dictInsert md (pyStripS d0) (pyStripS d1))
        | _ => Except.error Err.rowIndex
      else pure md) := rfl
  rw [hstep, if_pos hm, hsplit, hrs]
  simp only [List.map_cons]
  rfl

/-- Witness for C3 (amended): a colon-free value, where the code agrees
with the claim (`"Report Type: Summary"` ↦ `Report Type` / `Summary`). -/
theorem C3_witness :
    metaStep [] ["Report Type" ++ ":" ++ " Summary"] =
      .ok (dictInsert [] (pyStripS "Report Type")
        (pyStripS (takeUntilColonS " Summary"))) :=
  C3_single_cell_split [] "Report Type" " Summary" (by decide) (by decide)

/-- C3 (counterexample): on the spec's Date scenario the single-cell
extractor stores `"10"` — the segment between the first two colons — not
the full right-hand text, and the mandatory timestamp parse of `"10"`
then fails, so no MetadataRecord with a parsed datetime is produced. -/
theorem C3_counterexample :
    extractMeta [dateScenarioRow] = .ok [("Date", "10")] ∧
    metadataPhase [dateScenarioRow] = .error (Err.dateFormat "10") ∧
    ("10" : String) ≠ "10:00 AM Mon Jan 01, 2024" :=
  ⟨rfl, rfl, by decide⟩

/-! ## C6: header reconstruction -/

theorem pickTitles_cons (m : Nat) (acc : List (List String))
    (i : List String) (rest : List (List String)) :
    pickTitles m acc (i :: rest) =
      if i = [""] then pickTitles m acc rest
      else if i.length < m then pickTitles m acc rest
      else if acc.length = 2 then acc
      else pickTitles m (acc ++ [i]) rest := rfl

theorem pickTitles_eq (m : Nat) :
    ∀ (ts acc : List (List String)), acc.length ≤ 2 →
      pickTitles m acc ts =
        (acc ++ ts.filter (fun i => !(i = [""]) && !(i.length < m))).take 2 := by
  intro ts
  induction ts with
  | nil =>
    intro acc hacc
    simp [pickTitles, List.take_of_length_le hacc]
  | cons i rest ih =>
    intro acc hacc
    rw [pickTitles_cons]
    by_cases h1 : i = [""]
    · rw [if_pos h1, ih acc hacc]
      simp [List.filter_cons, h1]
    · rw [if_neg h1]
      by_cases h2 : i.length < m
      · rw [if_pos h2, ih acc hacc]
        simp [List.filter_cons, h1, h2]
      · rw [if_neg h2]
        have hfil : List.filter (fun i => !(i = [""]) && !(i.length < m)) (i :: rest)
            = i :: List.filter (fun i => !(i = [""]) && !(i.length < m)) rest := by
          simp [List.filter_cons, h1, h2]
        by_cases h3 : acc.length = 2
        · rw [if_pos h3, hfil, List.take_append_eq_append_take, h3]
          simp [List.take_of_length_le (le_of_eq h3)]
        · rw [if_neg h3]
          have hacc2 : (acc ++ [i]).length ≤ 2 := by
            simp only [List.length_append, List.length_singleton]
            omega
          rw [ih (acc ++ [i]) hacc2, hfil, List.append_assoc]
          rfl

theorem zipJoin_pair (l1 l2 : List String) :
    ((l1.zip (l2.map fun a => [a])).map (fun p => p.1 :: p.2)).map joinSpace
      = List.zipWith (fun a b => a ++ " " ++ b) l1 l2 := by
  induction l1 generalizing l2 with
  | nil => simp
  | cons a as ih =>
    cases l2 with
    | nil => simp
    | cons b bs => simp [ih, joinSpace]

theorem zipJoin_single (l : List String) :
    ((l.map fun a => [a]).map joinSpace) = l := by
  rw [List.map_map]
  have hcomp : (joinSpace ∘ fun a => [a]) = fun a => a := by
    funext a
    rfl
  rw [hcomp, List.map_id']

theorem zipMin_join (ls : List (List String)) (h : ls.length ≤ 2) :
    (zipMin ls).map joinSpace = specZipJoin ls := by
  match ls with
  | [] => rfl
  | [l] =>
    show ((l.map fun a => [a]).map joinSpace) = l
    exact zipJoin_single l
  | [l1, l2] =>
    show ((l1.zip (l2.map fun a => [a])).map (fun p => p.1 :: p.2)).map joinSpace
      = List.zipWith (fun a b => a ++ " " ++ b) l1 l2
    exact zipJoin_pair l1 l2
  | _ :: _ :: _ :: _ => simp at h

theorem maxTitleLen_cons (t : List String) (ts' : List (List String)) :
    maxTitleLen (t :: ts') = pure (specMaxLen (t :: ts')) := rfl

/-- C6 (confirmed): for every non-empty header token-list collection the
final column names are obtained exactly as the claim says — discard
token lists that are `['']` (empty text) or shorter than the maximum
length, take the first two survivors, zip positionally, join each tuple
with one space, and prepend `"TIME"`. -/
theorem C6_header_reconstruction (ts : List (List String)) (h : ts ≠ []) :
    headerPhase ts = .ok ("TIME" :: specZipJoin (specSurvivors ts (specMaxLen ts))) := by
  cases ts with
  | nil => exact absurd rfl h
  | cons t ts' =>
    unfold headerPhase
    rw [maxTitleLen_cons]
    have hpick := pickTitles_eq (specMaxLen (t :: ts')) (t :: ts') [] (by simp)
    rw [List.nil_append] at hpick
    have hjoin : (zipMin (pickTitles (specMaxLen (t :: ts')) [] (t :: ts'))).map joinSpace
        = specZipJoin (specSurvivors (t :: ts') (specMaxLen (t :: ts'))) := by
      unfold specSurvivors
      rw [hpick]
      exact zipMin_join _ (List.length_take_le 2 _)
    simp only [Bind.bind, Except.bind, pure, Except.pure, hjoin]

/-- Witness for C6 at a two-line wrapped header. -/
theorem C6_witness :
    headerPhase [["A", "B"], ["C", "D"]] =
      .ok ("TIME" :: specZipJoin (specSurvivors [["A", "B"], ["C", "D"]]
        (specMaxLen [["A", "B"], ["C", "D"]]))) :=
  C6_header_reconstruction [["A", "B"], ["C", "D"]] (by decide)

/-! ## C10: the adjacent-value lookup on a trailing label -/

theorem listIndexOf_append_notmem (x : String) (l1 l2 : List String)
    (h : x ∉ l1) : listIndexOf x (l1 ++ x :: l2) = l1.length := by
  induction l1 with
  | nil => simp [listIndexOf]
  | cons y ys ih =>
    have hy : ¬(y = x) := fun e => h (e ▸ List.mem_cons_self y ys)
    have ih' := ih (fun hm => h (List.mem_cons_of_mem y hm))
    simp [listIndexOf, hy, ih']
    omega

theorem metaCellStep_error (row : List String) (acc : List (String × String))
    (cell : String) (e : Err) (h : metaCellStep row acc cell = .error e) :
    e = Err.rowIndex := by
  unfold metaCellStep at h
  split at h
  · split at h
    · simp [pure, Except.pure] at h
    · simp at h
      exact h.symm
  · simp [pure, Except.pure] at h

theorem metaStep_error (md : List (String × String)) (row : List String)
    (e : Err) (h : metaStep md row = .error e) : e = Err.rowIndex := by
  cases row with
  | nil => simp [metaStep, List.foldlM_nil, pure, Except.pure] at h
  | cons c rest =>
    cases rest with
    | nil =>
      have hs : metaStep md [c] =
          (if matchesLabelS c = true then
            match splitColonS c with
            | d0 :: d1 :: _ => pure (dictInsert md (pyStripS d0) (pyStripS d1))
            | _ => Except.error Err.rowIndex
          else pure md) := rfl
      rw [hs] at h
      split at h
      · split at h
        · simp [pure, Except.pure] at h
        · simp at h
          exact h.symm
      · simp [pure, Except.pure] at h
    | cons c2 rest2 =>
      have hs : metaStep md (c :: c2 :: rest2) =
          List.foldlM (metaCellStep (c :: c2 :: rest2)) md (c :: c2 :: rest2) := rfl
      rw [hs] at h
      exact foldlM_error_kind _ (· = Err.rowIndex)
        (fun acc x e' hx => metaCellStep_error _ _ _ _ hx) _ _ _ h

theorem extractMeta_error (rows : List (List String)) (e : Err)
    (h : extractMeta rows = .error e) : e = Err.rowIndex := by
  unfold extractMeta at h
  exact foldlM_error_kind metaStep (· = Err.rowIndex)
    (fun md row e' hx => metaStep_error md row e' hx) rows [] e h

theorem metaCellStep_last_error (pre : List String) (lst : String)
    (hm : matchesLabelS lst = true) (hnd : lst ∉ pre) :
    ∀ acc, ∃ e, metaCellStep (pre ++ [lst]) acc lst = .error e := by
  intro acc
  refine ⟨Err.rowIndex, ?_⟩
  unfold metaCellStep
  rw [if_pos hm]
  have hidx : listIndexOf lst (pre ++ [lst]) = pre.length :=
    listIndexOf_append_notmem lst pre [] hnd
  have hget : (pre ++ [lst]).get? (pre.length + 1) = none := by
    rw [List.get?_eq_none]
    simp
  rw [hidx, hget]

theorem metaStep_trailing (md : List (String × String)) (pre : List String)
    (lst : String) (hpre : pre ≠ []) (hm : matchesLabelS lst = true)
    (hnd : lst ∉ pre) : metaStep md (pre ++ [lst]) = .error Err.rowIndex := by
  obtain ⟨p, ps, rfl⟩ := List.exists_cons_of_ne_nil hpre
  obtain ⟨q, qs, hq⟩ : ∃ q qs, ps ++ [lst] = q :: qs := by
    cases ps with
    | nil => exact ⟨lst, [], rfl⟩
    | cons a as => exact ⟨a, as ++ [lst], rfl⟩
  have hrow : (p :: ps) ++ [lst] = p :: q :: qs := by
    rw [List.cons_append, hq]
  rw [hrow]
  have hms : metaStep md (p :: q :: qs) =
      List.foldlM (metaCellStep (p :: q :: qs)) md (p :: q :: qs) := rfl
  rw [hms]
  have hmem : lst ∈ p :: q :: qs := by
    rw [← hrow]
    exact List.mem_append_right _ (by simp)
  have hfail : ∀ acc, ∃ e, metaCellStep (p :: q :: qs) acc lst = .error e := by
    rw [← hrow]
    exact metaCellStep_last_error (p :: ps) lst hm hnd
  obtain ⟨e, he⟩ :=
    foldlM_error_of_mem (metaCellStep (p :: q :: qs)) lst (p :: q :: qs) hmem hfail md
  have hk : e = Err.rowIndex :=
    foldlM_error_kind _ (· = Err.rowIndex)
      (fun acc x e' hx => metaCellStep_error _ _ _ _ hx) _ _ _ he
  rw [← hk]
  exact he

/-- C10 (amended): a multi-cell grid row whose final cell matches the
label pattern *and whose final cell's text does not occur earlier in the
row* makes `val[val.index(i)+1]` index one past the end, so metadata
extraction fails with the out-of-range error and the run aborts.  (When
the same text also occurs earlier, `val.index` returns that earlier
position and no error occurs — see the counterexample.) -/
theorem C10_trailing_label_out_of_range (rows : List (List String))
    (pre : List String) (lst : String)
    (hmem : (pre ++ [lst]) ∈ rows) (hpre : pre ≠ [])
    (hm : matchesLabelS lst = true) (hnd : lst ∉ pre) :
    extractMeta rows = .error Err.rowIndex ∧
    (∀ (frags : List Fragment) (st : ScrapeState),
      processFragments frags = .ok st →
      rows = (sorted_rows_dict st.1).map (fun p => p.2) →
      ∃ e, mainRun frags = .error e) := by
  have hrowfail : ∀ md, ∃ e, metaStep md (pre ++ [lst]) = .error e :=
    fun md => ⟨Err.rowIndex, metaStep_trailing md pre lst hpre hm hnd⟩
  have hextract : extractMeta rows = .error Err.rowIndex := by
    obtain ⟨e, he⟩ := foldlM_error_of_mem metaStep (pre ++ [lst]) rows hmem hrowfail []
    have hk : e = Err.rowIndex :=
      foldlM_error_kind metaStep (· = Err.rowIndex)
        (fun md row e' hx => metaStep_error md row e' hx) rows [] e he
    unfold extractMeta
    rw [← hk]
    exact he
  refine ⟨hextract, ?_⟩
  intro frags st hp hrows
  unfold mainRun
  rw [hp]
  simp only [Bind.bind, Except.bind]
  cases hh : headerPhase st.2 with
  | error e => exact ⟨e, rfl⟩
  | ok cols =>
    have hmp : metadataPhase ((sorted_rows_dict st.1).map (fun p => p.2)) =
        .error Err.rowIndex := by
      unfold metadataPhase
      rw [← hrows, hextract]
      rfl
    rw [hmp]
    exact ⟨Err.rowIndex, rfl⟩

/-- Witness for C10 (amended): the grid row `["x", "A:"]` aborts
metadata extraction with the out-of-range error. -/
theorem C10_witness : extractMeta [["x", "A:"]] = .error Err.rowIndex :=
  (C10_trailing_label_out_of_range [["x", "A:"]] ["x"] "A:"
    (by decide) (by decide) (by decide) (by decide)).1

/-- C10 (counterexample): when the final cell's text already occurs
earlier in the row, `val.index` finds the first occurrence, the lookup
stays in range, and the run does not fail — the claim's universal
statement is false. -/
theorem C10_counterexample :
    extractMeta [["A:", "x", "A:"]] = .ok [("A", "x")] ∧
    matchesLabelS "A:" = true :=
  ⟨rfl, rfl⟩

/-! ## C8: shape of the final table -/

theorem insertMeta_spec :
    ∀ (md : List (String × MetaVal)) (t t' : FinalTable),
      insertMeta md t = .ok t' →
      t'.cols = (md.map Prod.fst).reverse ++ t.cols ∧
      (∀ r' ∈ t'.rows, ∃ r ∈ t.rows,
        r'.drop md.length = r ∧ r'.length = md.length + r.length) := by
  intro md
  induction md with
  | nil =>
    intro t t' h
    simp [insertMeta, List.foldlM_nil, pure, Except.pure] at h
    subst h
    exact ⟨by simp, fun r' hr' => ⟨r', hr', by simp, by simp⟩⟩
  | cons kv md' ih =>
    intro t t' h
    unfold insertMeta at h
    rw [List.foldlM_cons] at h
    by_cases hdup : t.cols.contains kv.1 = true
    · rw [if_pos hdup] at h
      simp [Bind.bind, Except.bind] at h
    · rw [if_neg hdup] at h
      simp only [Bind.bind, Except.bind, pure, Except.pure] at h
      have h' : insertMeta md'
          { cols := kv.1 :: t.cols,
            rows := t.rows.map (fun r => metaCell kv.2 :: r) } = .ok t' := by
        unfold insertMeta
        exact h
      obtain ⟨hc, hr⟩ := ih _ t' h'
      constructor
      · rw [hc]
        simp [List.append_assoc]
      · intro r' hr'
        obtain ⟨r1, hr1, hdrop, hlen⟩ := hr r' hr'
        obtain ⟨r, hrmem, rfl⟩ := List.mem_map.mp hr1
        refine ⟨r, hrmem, ?_, ?_⟩
        · have h1 : (kv :: md').length = md'.length + 1 := by
            simp
          rw [h1, ← List.drop_drop, hdrop]
          rfl
        · rw [hlen]
          simp
          omega
      
theorem foldl_max_le_init (rows : List (List String)) :
    ∀ acc : Nat, acc ≤ rows.foldl (fun m r => max m r.length) acc := by
  induction rows with
  | nil => intro acc; simp
  | cons r rs ih =>
    intro acc
    exact le_trans (le_max_left acc r.length) (ih (max acc r.length))

theorem length_le_maxRowLen (rows : List (List String)) (r : List String)
    (hr : r ∈ rows) : r.length ≤ maxRowLen rows := by
  unfold maxRowLen
  have key : ∀ (l : List (List String)) (acc : Nat), r ∈ l →
      r.length ≤ l.foldl (fun m r => max m r.length) acc := by
    intro l
    induction l with
    | nil => intro acc h; cases h
    | cons y ys ih =>
      intro acc h
      rcases List.mem_cons.mp h with h | h
      · subst h
        exact le_trans (le_max_right acc r.length) (foldl_max_le_init ys _)
      · exact ih _ h
  exact key rows 0 hr

theorem mapFirst_length (f : Cell → Cell) (l : List Cell) :
    (mapFirst f l).length = l.length := by
  cases l <;> rfl

theorem padRow_length (w : Nat) (r : List String) (h : r.length ≤ w) :
    (padRow w r).length = w := by
  unfold padRow
  rw [List.length_append, List.length_map, List.length_replicate]
  omega

theorem normalizeRows_mem_length (rows : List (List String)) (r' : List Cell)
    (h : r' ∈ normalizeRows rows) : r'.length = maxRowLen rows := by
  unfold normalizeRows at h
  obtain ⟨r4, hr4, rfl⟩ := List.mem_map.mp h
  obtain ⟨hr3, _⟩ := List.mem_filter.mp hr4
  obtain ⟨r2, hr2, rfl⟩ := List.mem_map.mp hr3
  obtain ⟨r1, hr1, rfl⟩ := List.mem_map.mp hr2
  obtain ⟨hpad, _⟩ := List.mem_filter.mp hr1
  obtain ⟨r, hr, rfl⟩ := List.mem_map.mp hpad
  rw [mapFirst_length, mapFirst_length, mapFirst_length,
    padRow_length _ _ (length_le_maxRowLen rows r hr)]

/-- C8 (confirmed): whenever the pipeline produces a Table, its column
list is the metadata keys (in reverse insertion order, since each
`df1.insert(0, ..)` pushes to the front) followed by the HeaderSpec
names, all rows share it, and every row has exactly
`len(HeaderSpec) + len(MetadataRecord)` cells. -/
theorem C8_table_shape (frags : List Fragment) (tbl : FinalTable)
    (hs : List String) (md : List (String × MetaVal))
    (hmain : mainRun frags = .ok tbl)
    (hh : headerSpecOf frags = .ok hs)
    (hm : metadataOf frags = .ok md) :
    tbl.cols = (md.map Prod.fst).reverse ++ hs ∧
    ∀ r ∈ tbl.rows, r.length = hs.length + md.length := by
  unfold mainRun at hmain
  unfold headerSpecOf at hh
  unfold metadataOf at hm
  cases hp : processFragments frags with
  | error e =>
    rw [hp] at hmain
    simp [Bind.bind, Except.bind] at hmain
  | ok st =>
    rw [hp] at hmain hh hm
    simp only [Bind.bind, Except.bind] at hmain hh hm
    cases hc : headerPhase st.2 with
    | error e =>
      rw [hc] at hh
      simp at hh
    | ok cols =>
      rw [hc] at hmain hh
      simp only [Bind.bind, Except.bind, Except.ok.injEq] at hmain hh
      subst hh
      cases hmd : metadataPhase ((sorted_rows_dict st.1).map fun p => p.2) with
      | error e =>
        rw [hmd] at hm
        simp at hm
      | ok md0 =>
        rw [hmd] at hmain hm
        simp only [Bind.bind, Except.bind, Except.ok.injEq] at hmain hm
        subst hm
        unfold normalizeTable at hmain
        split at hmain
        · obtain ⟨hcols, hrows⟩ := insertMeta_spec md0 _ tbl hmain
          refine ⟨by rw [hcols], ?_⟩
          intro r hr
          obtain ⟨r0, hr0, _, hlen'⟩ := hrows r hr
          rw [hlen', normalizeRows_mem_length _ _ hr0]
          omega
        · simp at hmain

/-- Witness for C8 at the master input. -/
theorem C8_witness :
    masterTable.cols =
      (([("Date", MetaVal.d masterDate)].map Prod.fst).reverse ++
        ["TIME", "A C", "B D"]) ∧
    ∀ r ∈ masterTable.rows,
      r.length = (["TIME", "A C", "B D"] : List String).length +
        ([("Date", MetaVal.d masterDate)] : List (String × MetaVal)).length :=
  C8_table_shape masterFrags masterTable ["TIME", "A C", "B D"]
    [("Date", MetaVal.d masterDate)] rfl rfl rfl

/-! ## C7: first cells of the final table -/

theorem string_of_data_nil (s : String) (h : s.data = []) : s = "" := by
  cases s
  simp_all

theorem dropWhile_head_false (p : Char → Bool) (l : List Char) (c : Char)
    (cs : List Char) (h : l.dropWhile p = c :: cs) : p c = false := by
  induction l with
  | nil => simp [List.dropWhile] at h
  | cons x xs ih =>
    rw [List.dropWhile_cons] at h
    by_cases hx : p x = true
    · rw [if_pos hx] at h
      exact ih h
    · rw [if_neg hx] at h
      injection h with h1 _
      rw [← h1]
      simpa using hx

theorem pyStripL_head (l : List Char) (c : Char) (cs : List Char)
    (h : pyStripL l = c :: cs) : isSpaceCh c = false := by
  unfold pyStripL at h
  exact dropWhile_head_false _ _ _ _ h

theorem replaceNbsp_strip_head (l : List Char) (c : Char) (cs : List Char)
    (h : replaceNbspL ' ' (pyStripL l) = c :: cs) : isSpaceCh c = false := by
  cases hp : pyStripL l with
  | nil =>
    rw [hp] at h
    simp [replaceNbspL] at h
  | cons c0 cs0 =>
    have h0 : isSpaceCh c0 = false := pyStripL_head _ _ _ hp
    rw [hp] at h
    simp only [replaceNbspL, List.map_cons, List.cons.injEq] at h
    obtain ⟨h1, _⟩ := h
    by_cases hnb : c0 = '\xa0'
    · rw [hnb] at h0
      exact absurd h0 (by decide)
    · rw [if_neg hnb] at h1
      rw [← h1]
      exact h0

theorem removeSpaces_cons_ne_nil (c : Char) (cs : List Char)
    (hc : isSpaceCh c = false) : removeSpacesL (c :: cs) ≠ [] := by
  have hcs : ¬(c = ' ') := by
    intro e
    rw [e] at hc
    exact absurd hc (by decide)
  simp [removeSpacesL, List.filter_cons, hcs]

theorem containsAlpha_filter (l : List Char) (h : l.any isAlphaCh = false) :
    (removeSpacesL l).any isAlphaCh = false := by
  rw [List.any_eq_false] at h ⊢
  intro x hx
  exact h x (List.mem_of_mem_filter hx)

theorem processFragments_cells (frags : List Fragment) :
    ∀ (acc st : ScrapeState), List.foldlM fragStep acc frags = .ok st →
      (∀ p ∈ acc.1, ∃ t, p.2 = cellOf t) →
      ∀ p ∈ st.1, ∃ t, p.2 = cellOf t := by
  induction frags with
  | nil =>
    intro acc st h hacc
    simp [List.foldlM_nil, pure, Except.pure] at h
    subst h
    exact hacc
  | cons f fs ih =>
    intro acc st h hacc
    rw [List.foldlM_cons] at h
    cases hf : fragStep acc f with
    | error e =>
      rw [hf] at h
      simp [Bind.bind, Except.bind] at h
    | ok acc' =>
      rw [hf] at h
      simp only [Bind.bind, Except.bind] at h
      refine ih acc' st h ?_
      rcases fragStep_ok_shape acc acc' f hf with ⟨_, rfl⟩ | ⟨t, ij, _, hlen⟩
      · exact hacc
      · intro p hp
        rw [hlen] at hp
        rcases List.mem_append.mp hp with hp | hp
        · exact hacc p hp
        · simp at hp
          exact ⟨t, by rw [hp]⟩

theorem sortedRow_cells (idx : List ((Int × Int) × String)) (i : Int)
    (c : String) (hc : c ∈ sortedRow idx i) : ∃ p ∈ idx, p.2 = c := by
  unfold sortedRow at hc
  obtain ⟨p, hp, rfl⟩ := List.mem_map.mp hc
  have hp2 : p ∈ matrixRow idx i := (List.perm_insertionSort _ _).mem_iff.mp hp
  exact ⟨p, List.mem_of_mem_filter hp2, rfl⟩

theorem firstCell_chain (c : String) (X : List Cell) :
    firstCell (mapFirst dashToNan (mapFirst blankToNan (Cell.s c :: X))) =
      (if c = "" then Cell.nan
       else if hasDoubleDashS c then Cell.nan else Cell.s c) := by
  by_cases h1 : c = "" <;> by_cases h2 : hasDoubleDashS c <;>
    simp [mapFirst, blankToNan, dashToNan, firstCell, h1, h2]

theorem firstCell_strip_chain (c : String) (X : List Cell) (h1 : ¬c = "")
    (h2 : hasDoubleDashS c = false) :
    firstCell (mapFirst stripSpacesCell
      (mapFirst dashToNan (mapFirst blankToNan (Cell.s c :: X)))) =
      Cell.s (removeSpacesS c) := by
  simp [mapFirst, blankToNan, dashToNan, stripSpacesCell, firstCell, h1, h2]

theorem normalizeRows_survivor (rows : List (List String)) (r' : List Cell)
    (h : r' ∈ normalizeRows rows) :
    ∃ c rest, (c :: rest) ∈ rows ∧ containsAlphaS c = false ∧ c ≠ "" ∧
      hasDoubleDashS c = false ∧ firstCell r' = Cell.s (removeSpacesS c) := by
  unfold normalizeRows at h
  obtain ⟨r4, hr4, rfl⟩ := List.mem_map.mp h
  obtain ⟨hr3, hns⟩ := List.mem_filter.mp hr4
  obtain ⟨r2, hr2, rfl⟩ := List.mem_map.mp hr3
  obtain ⟨r1, hr1, rfl⟩ := List.mem_map.mp hr2
  obtain ⟨hpad, hna⟩ := List.mem_filter.mp hr1
  obtain ⟨r, hrmem, rfl⟩ := List.mem_map.mp hpad
  simp only [Bool.not_eq_true', decide_eq_false_iff_not] at hns
  simp only [Bool.not_eq_true'] at hna
  cases r with
  | nil =>
    exfalso
    apply hns
    unfold padRow
    simp only [List.map_nil, List.nil_append, List.length_nil, Nat.sub_zero]
    cases hw : maxRowLen rows with
    | zero => rfl
    | succ n => rfl
  | cons c rest =>
    have hpadeq : padRow (maxRowLen rows) (c :: rest) =
        Cell.s c :: (rest.map Cell.s ++
          List.replicate (maxRowLen rows - (c :: rest).length) Cell.nan) := by
      simp [padRow]
    rw [hpadeq] at hna hns ⊢
    rw [firstCell_chain] at hns
    have halpha : containsAlphaS c = false := by
      simpa [firstCell, cellHasAlpha] using hna
    by_cases hblank : c = ""
    · exact absurd (by simp [hblank]) hns
    · by_cases hdd : hasDoubleDashS c = true
      · exact absurd (by simp [hblank, hdd]) hns
      · refine ⟨c, rest, hrmem, halpha, hblank, by simpa using hdd, ?_⟩
        rw [firstCell_strip_chain c _ hblank (by simpa using hdd)]

/-- C7 (amended): (a) in every Table the pipeline produces, the first
data cell of every row (the cell in the first HeaderSpec column, right
after the `len(MetadataRecord)` prepended metadata cells) is a string
that is non-blank and contains no letter; (b) a surviving normalized row
always originates from a grid row whose first cell was letter-free,
non-empty and without a double dash — rows with a blank, all-dash or
lettered first cell are dropped entirely.  However the surviving first
cell is re-written by the whitespace removal, which can *create* an
all-dash value (`"- -"` becomes `"--"`): the original claim's "no
all-dash first cell appears in the final Table" fails, see the
counterexample. -/
theorem C7_first_cell_filter (frags : List Fragment) (tbl : FinalTable)
    (md : List (String × MetaVal))
    (hmain : mainRun frags = .ok tbl) (hm : metadataOf frags = .ok md) :
    (∀ r' ∈ tbl.rows, ∃ s, (r'.drop md.length).headD Cell.nan = Cell.s s ∧
      s ≠ "" ∧ containsAlphaS s = false) ∧
    (∀ (rows : List (List String)) (r0 : List Cell), r0 ∈ normalizeRows rows →
      ∃ c rest, (c :: rest) ∈ rows ∧ containsAlphaS c = false ∧ c ≠ "" ∧
        hasDoubleDashS c = false) := by
  refine ⟨?_, ?_⟩
  · unfold mainRun at hmain
    unfold metadataOf at hm
    cases hp : processFragments frags with
    | error e =>
      rw [hp] at hmain
      simp [Bind.bind, Except.bind] at hmain
    | ok st =>
      rw [hp] at hmain hm
      simp only [Bind.bind, Except.bind] at hmain hm
      cases hc : headerPhase st.2 with
      | error e =>
        rw [hc] at hmain
        simp [Except.bind] at hmain
      | ok cols =>
        rw [hc] at hmain
        simp only [Bind.bind, Except.bind] at hmain
        cases hmd : metadataPhase ((sorted_rows_dict st.1).map fun p => p.2) with
        | error e =>
          rw [hmd] at hm
          simp at hm
        | ok md0 =>
          rw [hmd] at hmain hm
          simp only [Bind.bind, Except.bind, Except.ok.injEq] at hmain hm
          subst hm
          unfold normalizeTable at hmain
          split at hmain
          · obtain ⟨_, hrows⟩ := insertMeta_spec md0 _ tbl hmain
            intro r' hr'
            obtain ⟨r0, hr0, hdrop, _⟩ := hrows r' hr'
            obtain ⟨c, rest, hcr, halpha, hne, _, hfirst⟩ :=
              normalizeRows_survivor _ _ hr0
            obtain ⟨pr, hprmem, hpr⟩ := List.mem_map.mp hcr
            obtain ⟨i, _, hpr2⟩ := List.mem_map.mp hprmem
            have hrow_eq : c :: rest = sortedRow st.1 i := by
              rw [← hpr, ← hpr2]
            have hcell : c ∈ sortedRow st.1 i := by
              rw [← hrow_eq]
              exact List.mem_cons_self c rest
            obtain ⟨p, hpmem, hp2⟩ := sortedRow_cells st.1 i c hcell
            obtain ⟨t, ht⟩ :=
              processFragments_cells frags ([], []) st hp (by simp) p hpmem
            have hct : c = cellOf t := by rw [← hp2, ht]
            have hcdata : (cellOf t).data = replaceNbspL ' ' (pyStripL t.data) := rfl
            refine ⟨removeSpacesS c, ?_, ?_, ?_⟩
            · rw [hdrop]
              exact hfirst
            · intro habs
              cases hdat : c.data with
              | nil => exact hne (string_of_data_nil c hdat)
              | cons c0 cs0 =>
                have hc0 : isSpaceCh c0 = false := by
                  apply replaceNbsp_strip_head t.data c0 cs0
                  rw [← hcdata, ← hct, hdat]
                have hnn : removeSpacesL (c0 :: cs0) ≠ [] :=
                  removeSpaces_cons_ne_nil c0 cs0 hc0
                apply hnn
                have := congrArg String.data habs
                simpa [removeSpacesS, hdat] using this
            · show (removeSpacesL c.data).any isAlphaCh = false
              exact containsAlpha_filter c.data halpha
          · simp at hmain
  · intro rows r0 h0
    obtain ⟨c, rest, h1, h2, h3, h4, _⟩ := normalizeRows_survivor rows r0 h0
    exact ⟨c, rest, h1, h2, h3, h4⟩

/-- Witness for C7 at the master input: the single data row's first data
cell is the non-blank, letter-free string `"1:00"`. -/
theorem C7_witness :
    (∀ r' ∈ masterTable.rows, ∃ s,
      (r'.drop ([("Date", MetaVal.d masterDate)] :
          List (String × MetaVal)).length).headD Cell.nan = Cell.s s ∧
      s ≠ "" ∧ containsAlphaS s = false) ∧
    (∀ (rows : List (List String)) (r0 : List Cell), r0 ∈ normalizeRows rows →
      ∃ c rest, (c :: rest) ∈ rows ∧ containsAlphaS c = false ∧ c ≠ "" ∧
        hasDoubleDashS c = false) :=
  C7_first_cell_filter masterFrags masterTable [("Date", MetaVal.d masterDate)]
    rfl rfl

/-- C7 (counterexample): with the extra row whose first cell is `"- -"`
(no letter, non-blank, no *consecutive* dashes, so it survives every
filter), the whitespace removal turns it into `"--"` — the final Table
contains a row whose first data cell consists solely of repeated
dashes, contradicting the claim. -/
theorem C7_counterexample :
    mainRun dashFrags = .ok ⟨["Date", "TIME", "A C", "B D"],
      [[Cell.d masterDate, Cell.s "1:00", Cell.s "5", Cell.s "7"],
       [Cell.d masterDate, Cell.s "--", Cell.s "8", Cell.s "9"]]⟩ ∧
    allDashS "--" = true :=
  ⟨rfl, by decide⟩
